import Mathlib

/-!
Shallow embedding of `microsat.c` (ms-output → microsatellite length data,
single-step mutation model, fully linked STRs).

Machine integers of the C program are modelled by `Int`/`Nat` (no overflow is
relevant to the claims), C `double` values by `ℚ` (the random draws are treated
as an opaque stream of values, per the spec), and the input/output streams by
lists of lines / strings.  Fallible operations return `Option`/`Except`.
-/

namespace Microsat

/-- `#define TOLERANCE 0.00000000000001` (= 1e-14), used for theta-sum
validation. -/
def TOLERANCE : ℚ := 1 / 10 ^ 14

/-- Direction draw → mutation step, from
`if(ran1() < 0.5) step = -1; else step = 1;` (microsat.c lines 202-203). -/
def stepOf (d : ℚ) : Int := if d < 1 / 2 then -1 else 1

/-- The locus-assignment loop of microsat.c lines 209-220:
`this_str = 0; value = 0.0; for(j...){ value += thetas[j];
if(random > value) continue; else { this_str = j; break; } }`.
`j` is the index of the head of the remaining theta list, `value` the
cumulative sum so far.  If the loop exhausts the list without breaking,
`this_str` keeps its initial value `0`. -/
def chooseStrAux (r : ℚ) (j : Nat) (value : ℚ) : List ℚ → Nat
  | [] => 0
  | t :: rest =>
      if r > value + t then chooseStrAux r (j + 1) (value + t) rest
      else j

/-- Locus choice for one segregating site, given the theta proportions and the
locus-assignment draw `r`. -/
def chooseStr (thetas : List ℚ) (r : ℚ) : Nat := chooseStrAux r 0 0 thetas

/-- Cumulative sum `thetas[0] + ... + thetas[j]`. -/
def cumSum (thetas : List ℚ) (j : Nat) : ℚ := (thetas.take (j + 1)).sum

/-- Defaulting of `thetas[0]` when a single STR is simulated
(microsat.c lines 130-132). -/
def thetasFor (linked_n : Nat) (given : List ℚ) : List ℚ :=
  if linked_n = 1 then [1] else given

/-- Effect of one segregating site `i` on the repeat-length matrix
(microsat.c lines 198-230): individuals (rows `< nsam`) whose haplotype
character at site `i` is `'1'` get `step` added at the chosen locus. -/
def mutateSite (haps : Nat → Nat → Char) (thetas : List ℚ) (nsam i : Nat)
    (dDir dLoc : ℚ) (nrep : Nat → Nat → Int) : Nat → Nat → Int :=
  fun ind k =>
    if ind < nsam ∧ haps ind i = '1' ∧ k = chooseStr thetas dLoc then
      nrep ind k + stepOf dDir
    else nrep ind k

/-- The per-site loop of the mutation engine.  `ran1()` is modelled as a
sequential stream `draws : Nat → ℚ` together with a cursor `c`: each call
reads `draws c` and advances the cursor.  The site body makes exactly two
calls, direction first (`stepOf (draws c)`) then locus assignment
(`chooseStr thetas (draws (c+1))`).  Arguments: remaining site count, current
site index `i`, cursor `c`, matrix so far; returns the final matrix and
cursor. -/
def engineAux (haps : Nat → Nat → Char) (thetas : List ℚ) (nsam : Nat)
    (draws : Nat → ℚ) :
    Nat → Nat → Nat → (Nat → Nat → Int) → (Nat → Nat → Int) × Nat
  | 0, _, c, nrep => (nrep, c)
  | rem + 1, i, c, nrep =>
      engineAux haps thetas nsam draws rem (i + 1) (c + 2)
        (mutateSite haps thetas nsam i (draws c) (draws (c + 1)) nrep)

/-- The mutation engine for one dataset (microsat.c lines 186-230): the matrix
is initialised to the ancestral state everywhere, then every segregating site
is applied in order starting from cursor position `c`. -/
def engine (haps : Nat → Nat → Char) (thetas : List ℚ) (nsam segsites : Nat)
    (draws : Nat → ℚ) (c : Nat) (ancstate : Int) : (Nat → Nat → Int) × Nat :=
  engineAux haps thetas nsam draws segsites 0 c (fun _ _ => ancstate)

/-- Concatenation of emitted output chunks (each `printf` emits one chunk). -/
def strJoin : List String → String
  | [] => ""
  | s :: rest => s ++ strJoin rest

/-- Flat-mode output (microsat.c lines 234-243): loci outer, individuals
inner, each value followed by `\t` except the globally last one
(`b == nsam-1 && a == linked_n-1`), which is followed by `\n`. -/
def flatOutput (nsam linked_n : Nat) (nrep : Nat → Nat → Int) : String :=
  strJoin ((List.range linked_n).flatMap fun a =>
    (List.range nsam).map fun b =>
      if b = nsam - 1 ∧ a = linked_n - 1 then toString (nrep b a) ++ "\n"
      else toString (nrep b a) ++ "\t")

/-- Per-individual-mode output (microsat.c lines 244-252): for each
individual, the first `linked_n - 1` values followed by `\t`, the last value
followed by `\n`; then a final `//` line. -/
def imOutput (nsam linked_n : Nat) (nrep : Nat → Nat → Int) : String :=
  strJoin ((List.range nsam).map fun a =>
    strJoin ((List.range (linked_n - 1)).map fun b => toString (nrep a b) ++ "\t")
      ++ toString (nrep a (linked_n - 1)) ++ "\n")
  ++ "//\n"

/-- Specification-shaped helper: tab-separated rendering of a token list. -/
def tabSep : List String → String
  | [] => ""
  | [s] => s
  | s :: rest => s ++ "\t" ++ tabSep rest

/-- State of the dynamic haplotype buffer: the `MAX_SITES` global, the actual
allocated capacity (in chars) of each per-individual row of `list`, and the
allocated capacity (in doubles) of `posit`. -/
structure BufState where
  maxSites : Nat
  listCap : Nat
  positCap : Nat

/-- Allocation state after microsat.c lines 135-140: `MAX_SITES = 1000`,
`list = cmatrix(nsam, MAX_SITES+1)` (1001 chars per row),
`posit = malloc(MAX_SITES * sizeof(double))`. -/
def initBufState : BufState :=
  { maxSites := 1000, listCap := 1001, positCap := 1000 }

/-- The growth step of the main loop (microsat.c lines 158-166): when
`segsites >= MAX_SITES`, `MAX_SITES` is set to `segsites + 10` and `posit`
is reallocated to the new size.  Line 165,
`void biggerlist(int nsam, unsigned MAX_SITES, char ** list);`, is a function
declaration, not a call, so the per-individual row buffers are left at their
previous capacity. -/
def growStep (st : BufState) (segsites : Nat) : BufState :=
  if st.maxSites ≤ segsites then
    { st with maxSites := segsites + 10, positCap := segsites + 10 }
  else st

/-- The `biggerlist` function as defined at microsat.c lines 279-290: sets
`MAX_SITES = nmax` and reallocates every row of `list` to `nmax` chars. -/
def biggerlist (st : BufState) (nmax : Nat) : BufState :=
  { st with maxSites := nmax, listCap := nmax }

/-- The growth step as it would be with `biggerlist` actually called at line
165 (after `MAX_SITES = segsites + 10`), which is what the surrounding code
and comment intend. -/
def growStepIntended (st : BufState) (segsites : Nat) : BufState :=
  if st.maxSites ≤ segsites then
    biggerlist { st with maxSites := segsites + 10, positCap := segsites + 10 }
      (segsites + 10)
  else st

/-- The boundary-skip loop of microsat.c lines 147-152:
`do { if(fgets(...) == NULL) { perror; exit(1); } } while (line[0] != '/');`.
Input is the list of remaining lines; `none` models the fatal abort on end of
stream; `some rest` returns the lines after the consumed boundary line. -/
def skipToBoundary : List String → Option (List String)
  | [] => none
  | l :: rest =>
      if l.data.head? = some '/' then some rest else skipToBoundary rest

/-- Run configuration (from the command-line flags): ancestral state (`-a`),
linked-STR count and theta proportions (`-l`), output mode (`-i`). -/
structure Config where
  ancstate : Int
  linked_n : Nat
  thetaProps : List ℚ
  im_flag : Bool

/-- One parsed dataset: segregating-site count and haplotype matrix
(individual → site → character). -/
structure Dataset where
  segsites : Nat
  haps : Nat → Nat → Char

/-- Theta handling of microsat.c lines 99-117 and 130-132: with a single STR
the thetas default to `[1.0]` with no validation; otherwise the run aborts
(`exit(1)`) when `1 - theta_sum > TOLERANCE || theta_sum - 1 > TOLERANCE`. -/
def parseThetas (linked_n : Nat) (props : List ℚ) : Except String (List ℚ) :=
  if linked_n = 1 then .ok [1]
  else if 1 - props.sum > TOLERANCE ∨ props.sum - 1 > TOLERANCE then
    .error "error: sum of thetas exceeds 1"
  else .ok props

/-- The per-dataset loop (microsat.c lines 144-254): each dataset is run
through the mutation engine (threading the random cursor) and formatted in
the configured mode. -/
def processDatasets (cfg : Config) (thetas : List ℚ) (nsam : Nat)
    (draws : Nat → ℚ) : List Dataset → Nat → List String
  | [], _ => []
  | d :: rest, c =>
      let res := engine d.haps thetas nsam d.segsites draws c cfg.ancstate
      (if cfg.im_flag then imOutput nsam cfg.linked_n res.1
       else flatOutput nsam cfg.linked_n res.1)
        :: processDatasets cfg thetas nsam draws rest res.2

/-- Whole run: configuration (theta validation) happens before any dataset is
touched; a validation failure yields `Except.error` and no dataset output. -/
def runMicrosat (cfg : Config) (nsam : Nat) (datasets : List Dataset)
    (draws : Nat → ℚ) : Except String (List String) :=
  match parseThetas cfg.linked_n cfg.thetaProps with
  | .error e => .error e
  | .ok thetas => .ok (processDatasets cfg thetas nsam draws datasets 0)

/-- Haplotype matrix of the end-to-end example: rows `"10"`, `"01"`, `"11"`. -/
def hapsC3 : Nat → Nat → Char :=
  fun ind i => (["10", "01", "11"].getD ind "").data.getD i '0'

/-- Injected draw sequence of the end-to-end example: site 0 direction `7/10`
(step +1), site 0 locus `3/10`; site 1 direction `1/5` (step -1), site 1
locus `2/5`. -/
def drawsC3 : Nat → ℚ :=
  fun n => [(7 : ℚ) / 10, 3 / 10, 1 / 5, 2 / 5].getD n 0

/-- Specification-shaped mutation engine, following the spec's draw-order
sentence: site `k` (the `k`-th of `S` segregating sites) consumes exactly two
draws, the direction draw at stream position `c + 2*k` and then the
locus-assignment draw at position `c + 2*k + 1`; the final cursor is
`c + 2*S`. -/
def specEngine (haps : Nat → Nat → Char) (thetas : List ℚ) (nsam : Nat)
    (draws : Nat → ℚ) (S i c : Nat) (nrep : Nat → Nat → Int) :
    (Nat → Nat → Int) × Nat :=
  ((List.range S).foldl
    (fun m k =>
      mutateSite haps thetas nsam (i + k) (draws (c + 2 * k)) (draws (c + 2 * k + 1)) m)
    nrep, c + 2 * S)

/-- The flat-mode values in emission order: locus-major (all individuals for
locus 0, then locus 1, ...), rendered in decimal. -/
def flatTokens (nsam linked_n : Nat) (nrep : Nat → Nat → Int) : List String :=
  (List.range linked_n).flatMap fun a =>
    (List.range nsam).map fun b => toString (nrep b a)

/-- First concrete draw stream for the determinism witness. -/
def d1C4 : Nat → ℚ := fun n => if n < 2 then 1 / 3 else 0

/-- Second concrete draw stream for the determinism witness: agrees with
`d1C4` on the two consumed positions, differs afterwards. -/
def d2C4 : Nat → ℚ := fun n => if n < 2 then 1 / 3 else 5

/-- Concrete repeat-length matrix for the formatter witness. -/
def nrepW : Nat → Nat → Int := fun b a => (b : Int) + 2 * (a : Int)

end Microsat

namespace Microsat

/-- C10: the mutation step is `-1` exactly when the site's direction draw is
strictly below `0.5`, and `+1` otherwise; a draw of exactly `0.5` yields
`+1`. -/
theorem step_mapping (d : ℚ) :
    (stepOf d = -1 ↔ d < 1 / 2) ∧ (stepOf d = 1 ↔ ¬ d < 1 / 2)
    ∧ stepOf ((1 : ℚ) / 2) = 1 := by
  refine ⟨?_, ?_, by norm_num [stepOf]⟩ <;>
    · unfold stepOf
      split <;> simp_all

/-- C5: with a configured locus count of 1, the theta proportions default to
`[1.0]` and every segregating site is assigned to locus index 0, whatever its
locus-assignment draw. -/
theorem single_locus_default (given : List ℚ) (r : ℚ) :
    thetasFor 1 given = [1] ∧ chooseStr (thetasFor 1 given) r = 0 := by
  refine ⟨rfl, ?_⟩
  simp [thetasFor, chooseStr, chooseStrAux]

/-- C6: for a dataset with zero segregating sites the engine leaves every
individual's length at every locus equal to the ancestral state, for any
ancestral state, sample size and theta configuration. -/
theorem zero_segsites_ancestral (haps : Nat → Nat → Char) (thetas : List ℚ)
    (nsam : Nat) (draws : Nat → ℚ) (c : Nat) (ancstate : Int) (ind j : Nat) :
    (engine haps thetas nsam 0 draws c ancstate).1 ind j = ancstate := rfl

/-- C2: evaluating the growth step of the main loop at a dataset with 2000
segregating sites (first dataset of the run, so `MAX_SITES = 1000`): the
`MAX_SITES` variable and `posit` grow to 2010, but the per-individual
haplotype buffers stay at their initial 1001 characters, violating the
claimed capacity invariant; the intended call to `biggerlist` (line 165 only
re-declares it) would have regrown them to `segsites + 10`. -/
theorem growStep_leaves_listCap :
    (growStep initBufState 2000).maxSites = 2010
    ∧ (growStep initBufState 2000).positCap = 2010
    ∧ (growStep initBufState 2000).listCap = 1001
    ∧ ¬ 2000 ≤ (growStep initBufState 2000).listCap
    ∧ (growStepIntended initBufState 2000).listCap = 2000 + 10 := by
  decide

/-- C3 counterexample: on the end-to-end example (N=3, S=2, haplotypes
`["10","01","11"]`, ancestral 20, L=1, step +1 at site 0 and -1 at site 1)
the flat-mode output line is not `21\t19\t19`. -/
theorem example_run_counterexample :
    stepOf (drawsC3 0) = 1 ∧ stepOf (drawsC3 2) = -1
    ∧ flatOutput 3 1 (engine hapsC3 [1] 3 2 drawsC3 0 20).1 ≠ "21\t19\t19\n" := by
  refine ⟨by norm_num [stepOf, drawsC3], by norm_num [stepOf, drawsC3], ?_⟩
  norm_num [flatOutput, engine, engineAux, mutateSite, hapsC3, drawsC3, chooseStr,
    chooseStrAux, stepOf, strJoin, List.range_succ]
  decide

/-- C3 amended: on the end-to-end example the flat-mode output line is
`21\t19\t20` (individual 0 gains +1 at site 0, individual 1 loses 1 at
site 1, individual 2 gains +1 then loses 1, netting the ancestral 20). -/
theorem example_run_amended :
    stepOf (drawsC3 0) = 1 ∧ stepOf (drawsC3 2) = -1
    ∧ flatOutput 3 1 (engine hapsC3 [1] 3 2 drawsC3 0 20).1 = "21\t19\t20\n" := by
  refine ⟨by norm_num [stepOf, drawsC3], by norm_num [stepOf, drawsC3], ?_⟩
  norm_num [flatOutput, engine, engineAux, mutateSite, hapsC3, drawsC3, chooseStr,
    chooseStrAux, stepOf, strJoin, List.range_succ]
  decide

/-- Helper: if position `i` of the remaining theta list is the first whose
running cumulative sum (starting from accumulator `v`) reaches `r`, the
assignment loop stops there and returns `j0 + i`. -/
theorem chooseStrAux_select (r : ℚ) (l : List ℚ) :
    ∀ (j0 : Nat) (v : ℚ) (i : Nat),
      i < l.length → r ≤ v + (l.take (i + 1)).sum →
      (∀ k, k < i → v + (l.take (k + 1)).sum < r) →
      chooseStrAux r j0 v l = j0 + i := by
  induction l with
  | nil => intro j0 v i hi; simp at hi
  | cons t rest ih =>
      intro j0 v i hi hle hmin
      cases i with
      | zero =>
          have hvt : r ≤ v + t := by simpa using hle
          simp only [chooseStrAux]
          rw [if_neg (not_lt.mpr hvt)]
          omega
      | succ i' =>
          have h0 : v + t < r := by simpa using hmin 0 (Nat.succ_pos _)
          simp only [chooseStrAux]
          rw [if_pos h0]
          have hres := ih (j0 + 1) (v + t) i' (by simpa using hi)
            (by
              have hx : r ≤ v + (t + (rest.take (i' + 1)).sum) := by simpa using hle
              linarith [hx])
            (fun k hk => by
              have := hmin (k + 1) (by omega)
              have h2 : v + (t + (rest.take (k + 1)).sum) < r := by simpa using this
              linarith [h2])
          rw [hres]
          omega

/-- Helper: if no running cumulative sum of the remaining theta list reaches
`r`, the assignment loop exhausts the list and `this_str` keeps its initial
value `0`. -/
theorem chooseStrAux_fallback (r : ℚ) (l : List ℚ) :
    ∀ (j0 : Nat) (v : ℚ),
      (∀ i, i < l.length → v + (l.take (i + 1)).sum < r) →
      chooseStrAux r j0 v l = 0 := by
  induction l with
  | nil => intro j0 v _; rfl
  | cons t rest ih =>
      intro j0 v h
      have h0 : v + t < r := by simpa using h 0 (Nat.succ_pos _)
      simp only [chooseStrAux]
      rw [if_pos h0]
      exact ih (j0 + 1) (v + t) (fun i hi => by
        have := h (i + 1) (by simpa using hi)
        have h2 : v + (t + (rest.take (i + 1)).sum) < r := by simpa using this
        linarith [h2])

/-- C1 (amended): a segregating site is assigned to the smallest-indexed
locus `j` whose cumulative theta sum is `≥ r`; when no cumulative sum reaches
`r`, the site is assigned to locus index 0 (the initial value of `this_str`),
not to the last locus. -/
theorem chooseStr_assignment (thetas : List ℚ) (r : ℚ) :
    (∀ j, j < thetas.length → r ≤ cumSum thetas j →
      (∀ k, k < j → cumSum thetas k < r) → chooseStr thetas r = j)
    ∧ ((∀ j, j < thetas.length → cumSum thetas j < r) → chooseStr thetas r = 0) := by
  constructor
  · intro j hj hle hmin
    have := chooseStrAux_select r thetas 0 0 j hj
      (by simpa [cumSum] using hle)
      (fun k hk => by simpa [cumSum] using hmin k hk)
    simpa using this
  · intro h
    exact chooseStrAux_fallback r thetas 0 0
      (fun i hi => by simpa [cumSum] using h i hi)

/-- C1 witness: for thetas `[1/2, 1/4, 1/4]` and draw `3/5`, index 1 is the
first whose cumulative sum reaches the draw, and the loop selects it. -/
theorem chooseStr_assignment_witness :
    (1 < 3) ∧ ((3 : ℚ) / 5 ≤ cumSum [(1 : ℚ) / 2, 1 / 4, 1 / 4] 1)
    ∧ chooseStr [(1 : ℚ) / 2, 1 / 4, 1 / 4] (3 / 5) = 1 := by
  refine ⟨by norm_num, by norm_num [cumSum], ?_⟩
  exact (chooseStr_assignment [(1 : ℚ) / 2, 1 / 4, 1 / 4] (3 / 5)).1 1
    (by norm_num) (by norm_num [cumSum])
    (fun k hk => by
      interval_cases k
      norm_num [cumSum])

/-- C1 counterexample: thetas `[1/2, 1/2 - 10^-15]` pass the 1e-14 sum check
yet sum to under 1; for the in-range draw `r = 1 - 10^-16` no cumulative sum
reaches `r`, and the site is assigned to locus 0, not the last locus
(index 1). -/
theorem chooseStr_fallback_counterexample :
    ((0 : ℚ) ≤ 1 - 1 / 10 ^ 16 ∧ (1 - 1 / 10 ^ 16 : ℚ) < 1)
    ∧ |([(1 : ℚ) / 2, 1 / 2 - 1 / 10 ^ 15].sum) - 1| ≤ TOLERANCE
    ∧ cumSum [(1 : ℚ) / 2, 1 / 2 - 1 / 10 ^ 15] 0 < 1 - 1 / 10 ^ 16
    ∧ cumSum [(1 : ℚ) / 2, 1 / 2 - 1 / 10 ^ 15] 1 < 1 - 1 / 10 ^ 16
    ∧ chooseStr [(1 : ℚ) / 2, 1 / 2 - 1 / 10 ^ 15] (1 - 1 / 10 ^ 16) = 0
    ∧ ¬ chooseStr [(1 : ℚ) / 2, 1 / 2 - 1 / 10 ^ 15] (1 - 1 / 10 ^ 16)
        = [(1 : ℚ) / 2, 1 / 2 - 1 / 10 ^ 15].length - 1 := by
  refine ⟨by norm_num, by norm_num [TOLERANCE, abs_le], by norm_num [cumSum],
    by norm_num [cumSum], ?_, ?_⟩ <;>
    norm_num [chooseStr, chooseStrAux]

/-- Helper: the engine loop equals the specification-shaped engine — site `k`
uses the draws at stream positions `c + 2*k` (direction) and `c + 2*k + 1`
(locus), and the cursor advances by exactly `2 * S`. -/
theorem engineAux_eq_specEngine (haps : Nat → Nat → Char) (thetas : List ℚ)
    (nsam : Nat) (draws : Nat → ℚ) :
    ∀ (S i c : Nat) (nrep : Nat → Nat → Int),
      engineAux haps thetas nsam draws S i c nrep
        = specEngine haps thetas nsam draws S i c nrep := by
  intro S
  induction S with
  | zero => intro i c nrep; simp [engineAux, specEngine]
  | succ n ih =>
      intro i c nrep
      show engineAux haps thetas nsam draws n (i + 1) (c + 2)
          (mutateSite haps thetas nsam i (draws c) (draws (c + 1)) nrep) = _
      rw [ih]
      unfold specEngine
      rw [Prod.mk.injEq]
      refine ⟨?_, by omega⟩
      rw [List.range_succ_eq_map, List.foldl_cons, List.foldl_map]
      have h0 : mutateSite haps thetas nsam (i + 0) (draws (c + 2 * 0))
            (draws (c + 2 * 0 + 1)) nrep
          = mutateSite haps thetas nsam i (draws c) (draws (c + 1)) nrep := by
        norm_num
      rw [h0]
      apply List.foldl_ext
      intro m k _
      have e1 : i + (k + 1) = i + 1 + k := by omega
      have e2 : c + 2 * (k + 1) = c + 2 + 2 * k := by omega
      have e3 : c + 2 * (k + 1) + 1 = c + 2 + 2 * k + 1 := by omega
      simp only [Nat.succ_eq_add_one, e1, e2, e3]

/-- C4: the mutation engine draws exactly two values per segregating site in
the fixed order direction-then-locus (it refines `specEngine`, whose site `k`
reads positions `c + 2*k` and `c + 2*k + 1`), the cursor advances by exactly
`2 * S`, and any two draw streams that agree on the consumed window (with
identical haplotype input) produce identical output. -/
theorem engine_draw_discipline (haps : Nat → Nat → Char) (thetas : List ℚ)
    (nsam S i c : Nat) (nrep : Nat → Nat → Int) (d1 d2 : Nat → ℚ)
    (h : ∀ p, c ≤ p → p < c + 2 * S → d1 p = d2 p) :
    engineAux haps thetas nsam d1 S i c nrep = specEngine haps thetas nsam d1 S i c nrep
    ∧ (engineAux haps thetas nsam d1 S i c nrep).2 = c + 2 * S
    ∧ engineAux haps thetas nsam d1 S i c nrep
        = engineAux haps thetas nsam d2 S i c nrep := by
  refine ⟨engineAux_eq_specEngine haps thetas nsam d1 S i c nrep, ?_, ?_⟩
  · rw [engineAux_eq_specEngine]
    rfl
  · rw [engineAux_eq_specEngine, engineAux_eq_specEngine]
    unfold specEngine
    rw [Prod.mk.injEq]
    refine ⟨?_, rfl⟩
    apply List.foldl_ext
    intro m k hk
    rw [List.mem_range] at hk
    rw [h (c + 2 * k) (by omega) (by omega), h (c + 2 * k + 1) (by omega) (by omega)]

/-- C4 witness: a concrete one-site run; `d1C4` and `d2C4` agree on the two
consumed positions and differ afterwards, and the runs coincide. -/
theorem engine_draw_discipline_witness :
    engineAux (fun _ _ => '1') [1] 1 d1C4 1 0 0 (fun _ _ => 0)
      = specEngine (fun _ _ => '1') [1] 1 d1C4 1 0 0 (fun _ _ => 0)
    ∧ (engineAux (fun _ _ => '1') [1] 1 d1C4 1 0 0 (fun _ _ => 0)).2 = 0 + 2 * 1
    ∧ engineAux (fun _ _ => '1') [1] 1 d1C4 1 0 0 (fun _ _ => 0)
      = engineAux (fun _ _ => '1') [1] 1 d2C4 1 0 0 (fun _ _ => 0) :=
  engine_draw_discipline (fun _ _ => '1') [1] 1 1 0 0 (fun _ _ => 0) d1C4 d2C4
    (fun p _ hp2 => by
      have hp : p < 2 := by omega
      simp [d1C4, d2C4, hp])

/-- Helper: the C test `1 - theta_sum > TOLERANCE || theta_sum - 1 > TOLERANCE`
holds exactly when the sum deviates from 1 by more than the tolerance. -/
theorem theta_guard_iff (s : ℚ) :
    (1 - s > TOLERANCE ∨ s - 1 > TOLERANCE) ↔ ¬ |s - 1| ≤ TOLERANCE := by
  rw [abs_le]
  constructor
  · rintro (h | h) ⟨h1, h2⟩ <;> linarith
  · intro h
    by_contra hc
    push_neg at hc
    obtain ⟨hc1, hc2⟩ := hc
    exact h ⟨by linarith, by linarith⟩

/-- C7: with more than one locus, a theta sequence is accepted exactly when
its sum is within `1e-14` of 1; on any larger deviation the whole run aborts
with the diagnostic before any dataset is processed, producing no dataset
output. -/
theorem theta_validation (L : Nat) (hL : L ≠ 1) (props : List ℚ) :
    (parseThetas L props = .ok props ↔ |props.sum - 1| ≤ TOLERANCE)
    ∧ (¬ |props.sum - 1| ≤ TOLERANCE →
        ∀ (anc : Int) (im : Bool) (nsam : Nat) (datasets : List Dataset)
          (draws : Nat → ℚ),
          runMicrosat ⟨anc, L, props, im⟩ nsam datasets draws
            = .error "error: sum of thetas exceeds 1") := by
  by_cases hgood : |props.sum - 1| ≤ TOLERANCE
  · have hc : ¬ (1 - props.sum > TOLERANCE ∨ props.sum - 1 > TOLERANCE) :=
      fun hx => (theta_guard_iff props.sum).mp hx hgood
    exact ⟨by simp [parseThetas, hL, hc, hgood], fun hbad => absurd hgood hbad⟩
  · have hc : 1 - props.sum > TOLERANCE ∨ props.sum - 1 > TOLERANCE :=
      (theta_guard_iff props.sum).mpr hgood
    constructor
    · simp [parseThetas, hL, hc, hgood]
    · intro _ anc im nsam datasets draws
      simp [runMicrosat, parseThetas, hL, hc]

/-- C7 witness: two loci with thetas summing to `0.9` (deviation `0.1`,
far above the tolerance) are rejected, and the run aborts with the
diagnostic and no dataset output. -/
theorem theta_validation_witness :
    ((parseThetas 2 [(1 : ℚ) / 2, 2 / 5] = .ok [(1 : ℚ) / 2, 2 / 5])
      ↔ |([(1 : ℚ) / 2, 2 / 5].sum) - 1| ≤ TOLERANCE)
    ∧ runMicrosat ⟨0, 2, [(1 : ℚ) / 2, 2 / 5], false⟩ 3 [] (fun _ => 0)
        = .error "error: sum of thetas exceeds 1" := by
  refine ⟨(theta_validation 2 (by decide) [(1 : ℚ) / 2, 2 / 5]).1, ?_⟩
  exact (theta_validation 2 (by decide) [(1 : ℚ) / 2, 2 / 5]).2
    (by norm_num [TOLERANCE, abs_le]) 0 false 3 [] (fun _ => 0)

/-- Helper: chunk concatenation distributes over list append. -/
theorem strJoin_append (l1 l2 : List String) :
    strJoin (l1 ++ l2) = strJoin l1 ++ strJoin l2 := by
  induction l1 with
  | nil => simp [strJoin]
  | cons s t ih => simp [strJoin, ih, String.append_assoc]

/-- Helper: emitting every token of `l` followed by a tab and then a final
string `y` yields the tab-separated rendering of `l ++ [y]`. -/
theorem tabSep_build (l : List String) (y : String) :
    strJoin (l.map (· ++ "\t")) ++ y = tabSep (l ++ [y]) := by
  induction l with
  | nil => simp [strJoin, tabSep]
  | cons s t ih =>
      cases t with
      | nil => simp [strJoin, tabSep, String.append_assoc]
      | cons s2 t2 =>
          calc strJoin ((s :: s2 :: t2).map (· ++ "\t")) ++ y
              = (s ++ "\t") ++ (strJoin ((s2 :: t2).map (· ++ "\t")) ++ y) := by
                simp [strJoin, String.append_assoc]
            _ = (s ++ "\t") ++ tabSep ((s2 :: t2) ++ [y]) := by rw [ih]
            _ = tabSep ((s :: s2 :: t2) ++ [y]) := by
                simp [tabSep, String.append_assoc]

/-- C8: flat mode emits the `N*L` repeat lengths in locus-major order,
tab-separated and newline-terminated (a single line); per-individual mode
emits, for each of the `N` individuals, its `L` locus values tab-separated
and newline-terminated, followed by a standalone `//` line. -/
theorem formatter_layout (nsam linked_n : Nat) (h1 : 1 ≤ nsam)
    (h2 : 1 ≤ linked_n) (nrep : Nat → Nat → Int) :
    flatOutput nsam linked_n nrep = tabSep (flatTokens nsam linked_n nrep) ++ "\n"
    ∧ (flatTokens nsam linked_n nrep).length = nsam * linked_n
    ∧ imOutput nsam linked_n nrep
      = strJoin ((List.range nsam).map fun a =>
          tabSep ((List.range linked_n).map fun b => toString (nrep a b)) ++ "\n")
        ++ "//\n" := by
  obtain ⟨N', rfl⟩ : ∃ m, nsam = m + 1 := ⟨nsam - 1, by omega⟩
  obtain ⟨L', rfl⟩ : ∃ m, linked_n = m + 1 := ⟨linked_n - 1, by omega⟩
  refine ⟨?_, ?_, ?_⟩
  · unfold flatOutput flatTokens
    rw [List.range_succ, List.flatMap_append, List.flatMap_append]
    have hA : (List.range L').flatMap
          (fun a => (List.range (N' + 1)).map fun b =>
            if b = N' + 1 - 1 ∧ a = L' + 1 - 1 then toString (nrep b a) ++ "\n"
            else toString (nrep b a) ++ "\t")
        = ((List.range L').flatMap
            (fun a => (List.range (N' + 1)).map fun b => toString (nrep b a))).map
            (· ++ "\t") := by
      rw [List.flatMap_def, List.flatMap_def, List.map_flatten, List.map_map]
      congr 1
      apply List.map_congr_left
      intro a ha
      have haL : a < L' := List.mem_range.mp ha
      have hane : ¬ a = L' + 1 - 1 := by omega
      simp [hane, List.map_map]
      intro b _ _ hcon
      exact absurd hcon (by omega)
    have hB : [L'].flatMap
          (fun a => (List.range (N' + 1)).map fun b =>
            if b = N' + 1 - 1 ∧ a = L' + 1 - 1 then toString (nrep b a) ++ "\n"
            else toString (nrep b a) ++ "\t")
        = ((List.range N').map fun b => toString (nrep b L')).map (· ++ "\t")
          ++ [toString (nrep N' L') ++ "\n"] := by
      simp only [List.flatMap_cons, List.flatMap_nil, List.append_nil]
      rw [List.range_succ, List.map_append, List.map_map]
      congr 1
      · apply List.map_congr_left
        intro b hb
        have hbN : b < N' := List.mem_range.mp hb
        have hcon : ¬ (b = N' + 1 - 1 ∧ (L' : Nat) = L' + 1 - 1) := by
          intro hx
          exact absurd hx.1 (by omega)
        rw [if_neg hcon]
        rfl
      · simp
    rw [hA, hB, strJoin_append, strJoin_append]
    have hBtail : strJoin [toString (nrep N' L') ++ "\n"]
        = toString (nrep N' L') ++ "\n" := by
      simp [strJoin]
    rw [hBtail]
    rw [show ∀ x y : String, x ++ (y ++ (toString (nrep N' L') ++ "\n"))
        = ((x ++ y) ++ toString (nrep N' L')) ++ "\n" from
      fun x y => by simp [String.append_assoc]]
    rw [← strJoin_append, ← List.map_append, tabSep_build]
    refine congrArg (fun l => tabSep l ++ "\n") ?_
    simp [List.range_succ, List.map_append, List.append_assoc]
  · unfold flatTokens
    rw [List.length_flatMap]
    simp [Function.comp_def]
    ring
  · unfold imOutput
    have hrow : ∀ a : Nat,
        strJoin ((List.range (L' + 1 - 1)).map fun b => toString (nrep a b) ++ "\t")
            ++ toString (nrep a (L' + 1 - 1)) ++ "\n"
          = tabSep ((List.range (L' + 1)).map fun b => toString (nrep a b)) ++ "\n" := by
      intro a
      have hmm : (List.range L').map (fun b => toString (nrep a b) ++ "\t")
          = ((List.range L').map fun b => toString (nrep a b)).map (· ++ "\t") := by
        rw [List.map_map]
        rfl
      rw [show L' + 1 - 1 = L' from rfl, hmm, tabSep_build]
      congr 2
      rw [List.range_succ, List.map_append]
      simp
    refine congrArg (· ++ "//\n") (congrArg strJoin (List.map_congr_left ?_))
    intro a _
    exact hrow a

/-- C8 witness: the layout theorem instantiated at N = 2 individuals and
L = 2 loci with a concrete repeat-length matrix. -/
theorem formatter_layout_witness :
    flatOutput 2 2 nrepW = tabSep (flatTokens 2 2 nrepW) ++ "\n"
    ∧ (flatTokens 2 2 nrepW).length = 2 * 2
    ∧ imOutput 2 2 nrepW
      = strJoin ((List.range 2).map fun a =>
          tabSep ((List.range 2).map fun b => toString (nrepW a b)) ++ "\n")
        ++ "//\n" :=
  formatter_layout 2 2 (by decide) (by decide) nrepW

/-- C9 counterexample: the reader's skip loop stops at the first line whose
first character is `/`; the line `/a` does not begin with the boundary
marker `//`, yet it terminates the skip (and is consumed). -/
theorem skip_single_slash_counterexample :
    skipToBoundary ["/a", "xx"] = some ["xx"]
    ∧ "/a".data.take 2 ≠ ['/', '/'] := by
  constructor
  · decide
  · decide

/-- C9 (amended): at the start of each dataset the reader skips lines until
one whose first character is `/` (the code checks only `line[0]`, not the
full `//` marker), consuming that line; if the stream ends first, the run
aborts (`none`), so the in-progress dataset produces no output. -/
theorem skip_to_boundary_spec (ls : List String) :
    (skipToBoundary ls = none ↔ ∀ l ∈ ls, l.data.head? ≠ some '/')
    ∧ (∀ l rest, l.data.head? = some '/' → skipToBoundary (l :: rest) = some rest)
    ∧ (∀ l rest, l.data.head? ≠ some '/' →
        skipToBoundary (l :: rest) = skipToBoundary rest) := by
  refine ⟨?_, ?_, ?_⟩
  · induction ls with
    | nil => simp [skipToBoundary]
    | cons l rest ih =>
        by_cases hl : l.data.head? = some '/'
        · simp [skipToBoundary, hl]
        · simp [skipToBoundary, hl, ih]
  · intro l rest hl
    simp [skipToBoundary, hl]
  · intro l rest hl
    simp [skipToBoundary, hl]

/-- C9 witness: a concrete stream where one line precedes the boundary, and a
concrete stream with no boundary at all. -/
theorem skip_to_boundary_spec_witness :
    skipToBoundary ["ab", "//", "tl"] = some ["tl"]
    ∧ skipToBoundary ["ab", "cd"] = none := by
  constructor
  · rw [(skip_to_boundary_spec ["ab", "//", "tl"]).2.2 "ab" ["//", "tl"] (by decide)]
    exact (skip_to_boundary_spec ["//", "tl"]).2.1 "//" ["tl"] (by decide)
  · exact (skip_to_boundary_spec ["ab", "cd"]).1.mpr (by decide)

end Microsat
